import Mathlib

/-!
Verification of the filtering/aggregation pipeline of the telemarketing
dashboard (`app.py`).

The program is a pandas/Streamlit app.  We embed the parts of pandas the
program uses at the granularity the program uses them:

* a `Table` is a list of `(index, row)` pairs — pandas DataFrames carry an
  integer row index that survives `query` but is renumbered by
  `reset_index(drop=True)`;
* a `Row` holds the columns the program touches: a numeric `age`, the eight
  categorical filter columns and the target column `y`.  Categorical cells
  are `Option String`: `none` models a missing value (NaN), which pandas
  `isin` never matches against a list of strings and which `dropna` /
  `value_counts` discard;
* rationals stand in for the floating-point percentages, so the
  distribution arithmetic is exact.
-/

namespace BankApp

/-- The eight categorical columns the sidebar offers as multiselect filters
(`filtros` in `app.py`). -/
inductive Col
  | job
  | marital
  | default
  | housing
  | loan
  | contact
  | month
  | day_of_week
deriving DecidableEq

/-- One row of the bank-marketing table: the numeric `age` column, the eight
categorical filter columns and the target column `y`.  `none` is a missing
value (NaN). -/
structure Row where
  age : Int
  job : Option String
  marital : Option String
  default : Option String
  housing : Option String
  loan : Option String
  contact : Option String
  month : Option String
  day_of_week : Option String
  y : Option String
deriving DecidableEq

/-- `df[column]` for the eight filterable columns. -/
def colVal (r : Row) : Col → Option String
  | .job => r.job
  | .marital => r.marital
  | .default => r.default
  | .housing => r.housing
  | .loan => r.loan
  | .contact => r.contact
  | .month => r.month
  | .day_of_week => r.day_of_week

/-- A DataFrame: rows together with their integer index.  A freshly loaded
table is indexed `0, 1, …, n-1`; filtering with `query` keeps the old index
values while `reset_index(drop=True)` renumbers. -/
abbrev Table := List (Nat × Row)

/-- The row values of a table, index dropped. -/
def rows (t : Table) : List Row := t.map Prod.snd

/-- `reset_index(drop=True)`: renumber the rows `0, 1, …, n-1`. -/
def resetIndex (t : Table) : Table := (rows t).enum

/-- A table whose index is already the contiguous `0, 1, …, n-1`, i.e. a
fixed point of `resetIndex`. -/
def Contiguous (t : Table) : Prop := resetIndex t = t

/-- `series.isin(selected_values)` for one cell, as the program uses it: the
selected values come from a multiselect over strings, so a missing value
(`none`) never matches. -/
def isin (v : Option String) (selected_values : List String) : Bool :=
  match v with
  | some s => decide (s ∈ selected_values)
  | none => false

/-- `multiselect_filter(df, column, selected_values)` (app.py lines 32-39):
if `'all'` is among the selected values, return `df` unchanged; otherwise
keep the rows whose value in `column` is in `selected_values` and reset the
index. -/
def multiselect_filter (df : Table) (column : Col) (selected_values : List String) : Table :=
  if "all" ∈ selected_values then df
  else resetIndex (df.filter fun p => isin (colVal p.2 column) selected_values)

/-- `bank.query("age >= @idades[0] and age <= @idades[1]")` (app.py line
117): keep rows whose age lies in the inclusive range; `query` keeps each
surviving row's old index value. -/
def queryAge (lo hi : Int) (df : Table) : Table :=
  df.filter fun p => decide (lo ≤ p.2.age) && decide (p.2.age ≤ hi)

/-- The age range plus the eight multiselect selections submitted by the
sidebar form (`idades` and `selections` in `app.py`). -/
structure FilterSpec where
  ageLo : Int
  ageHi : Int
  sel : Col → List String

/-- The iteration order of the `selections` dict: insertion order of the
`filtros` literal. -/
def filterCols : List Col :=
  [.job, .marital, .default, .housing, .loan, .contact, .month, .day_of_week]

/-- The loop `for col, selected in selections.items(): bank =
multiselect_filter(bank, col, selected)` (app.py lines 118-119). -/
def applyCats (spec : FilterSpec) : List Col → Table → Table
  | [], t => t
  | c :: cs, t => applyCats spec cs (multiselect_filter t c (spec.sel c))

/-- The full filter pass of `main` (app.py lines 117-119): the age-range
`query` followed by the eight categorical filters in order. -/
def applyFilters (spec : FilterSpec) (t : Table) : Table :=
  applyCats spec filterCols (queryAge spec.ageLo spec.ageHi t)

/-- `bank[col].dropna().unique().tolist()` followed by `values.append('all')`
(app.py lines 110-111): the option list a multiselect offers, built from the
column's non-missing values with the sentinel appended. -/
def optionValues (bank : Table) (col : Col) : List String :=
  ((rows bank).filterMap fun r => colVal r col).dedup ++ ["all"]

/-- Code-point comparison of strings as lists of characters, the order
pandas `sort_index` uses on string labels. -/
def lexLt : List Char → List Char → Bool
  | [], [] => false
  | [], _ :: _ => true
  | _ :: _, [] => false
  | a :: as, b :: bs =>
    if a.toNat < b.toNat then true
    else if b.toNat < a.toNat then false
    else lexLt as bs

/-- Insert into a sorted list of labels. -/
def insertSorted (v : String) : List String → List String
  | [] => [v]
  | x :: xs => if lexLt v.data x.data then v :: x :: xs else x :: insertSorted v xs

/-- Sort category labels ascending (`sort_index`). -/
def sortLabels : List String → List String
  | [] => []
  | x :: xs => insertSorted x (sortLabels xs)

/-- The non-missing values of the target column `y` — the entries
`value_counts` actually counts, since it drops NaN. -/
def yValues (t : Table) : List String := (rows t).filterMap Row.y

/-- `bank.y.value_counts(normalize=True).sort_index() * 100` (app.py lines
135-136): each distinct non-missing `y` value paired with its share of the
counted entries, as a percentage, labels sorted ascending. -/
def distribution (t : Table) : List (String × ℚ) :=
  let vs := yValues t
  (sortLabels vs.dedup).map fun v => (v, (vs.count v : ℚ) / (vs.length : ℚ) * 100)

/-- An uploaded file as the loader sees it: a name, and the outcomes the two
external parsers (`pd.read_csv` with `sep=';'`, `pd.read_excel`) would
produce on its bytes.  The parsers are black boxes; only the dispatch on the
extension belongs to the program. -/
structure UploadedFile where
  name : String
  parseCsv : Except String Table
  parseXlsx : Except String Table

/-- What `load_data` communicates: a table, or the error notice it shows
before returning `None`. -/
inductive LoadResult
  | ok (data : Table)
  | unsupportedFormat (msg : String)
  | loadError (msg : String)
deriving DecidableEq

/-- `file.name.endswith(suffix)`. -/
def nameEndsWith (s suffix : String) : Bool :=
  List.isSuffixOf suffix.data s.data

/-- `load_data(file)` (app.py lines 15-30): dispatch on the file extension;
an unsupported extension is reported and yields no table; a parser exception
is reported as a load error and yields no table. -/
def load_data (file : UploadedFile) : LoadResult :=
  if nameEndsWith file.name ".csv" then
    match file.parseCsv with
    | .ok data => .ok data
    | .error e => .loadError e
  else if nameEndsWith file.name ".xlsx" then
    match file.parseXlsx with
    | .ok data => .ok data
    | .error e => .loadError e
  else .unsupportedFormat "Formato de arquivo não suportado. Envie um CSV ou Excel."

/-- What `main` produces after a table has been loaded (app.py lines
117-145): either the empty-result warning with nothing else computed, or the
filtered table together with the two distributions that feed the download
buttons and the charts. -/
inductive RenderOutcome
  | noData (warning : String)
  | rendered (filtered : Table) (rawPerc filteredPerc : List (String × ℚ))
deriving DecidableEq

/-- The post-load part of `main`: apply the filters; if the result is empty,
warn and return before any aggregation, export or chart; otherwise compute
the two distributions. -/
def renderFiltered (bank_raw : Table) (spec : FilterSpec) : RenderOutcome :=
  let bank := applyFilters spec bank_raw
  if bank.isEmpty then .noData "Nenhum dado encontrado com os filtros selecionados."
  else .rendered bank (distribution bank_raw) (distribution bank)

/-- One run of `main`'s pipeline, as far as the core goes. -/
inductive AppOutcome
  | noFile
  | loadFailed (msg : String)
  | completed (result : RenderOutcome)
deriving DecidableEq

/-- `main` (app.py lines 79-145): nothing happens without a file; a failed
load halts before any filtering; otherwise the filter/aggregate stage runs. -/
def runApp (file : Option UploadedFile) (spec : FilterSpec) : AppOutcome :=
  match file with
  | none => .noFile
  | some f =>
    match load_data f with
    | .ok bank_raw => .completed (renderFiltered bank_raw spec)
    | .unsupportedFormat m => .loadFailed m
    | .loadError m => .loadFailed m

/-- A single filtering step, for stating order-independence: the age-range
query or one categorical filter. -/
inductive FStep
  | range
  | cat (c : Col)
deriving DecidableEq

/-- Apply one step of the pass. -/
def applyStep (spec : FilterSpec) (t : Table) : FStep → Table
  | .range => queryAge spec.ageLo spec.ageHi t
  | .cat c => multiselect_filter t c (spec.sel c)

/-- Apply a list of steps left to right. -/
def applySteps (spec : FilterSpec) : List FStep → Table → Table
  | [], t => t
  | s :: ss, t => applySteps spec ss (applyStep spec t s)

/-- The order `main` uses: the range query first, then the categorical
filters in dict order. -/
def implementedOrder : List FStep := .range :: filterCols.map .cat

/-- The row-level predicate one step filters by, ignoring indices: the
sentinel makes a categorical step unconditionally true. -/
def stepPred (spec : FilterSpec) (s : FStep) (r : Row) : Bool :=
  match s with
  | .range => decide (spec.ageLo ≤ r.age) && decide (r.age ≤ spec.ageHi)
  | .cat c => decide ("all" ∈ spec.sel c) || isin (colVal r c) (spec.sel c)

/-! ### Concrete sample data for the closed checks -/

/-- A sample row with the given age, job and target value; the remaining
categorical columns hold fixed values. -/
def mkRow (age : Int) (job y : Option String) : Row :=
  { age := age, job := job, marital := some "married", default := some "no",
    housing := some "yes", loan := some "no", contact := some "cellular",
    month := some "may", day_of_week := some "mon", y := y }

/-- The default sidebar state: every multiselect left at `['all']`. -/
def allSel : Col → List String := fun _ => ["all"]

/-- Selections restricting the job column to `admin`, everything else at
`['all']`. -/
def jobAdminSel : Col → List String := fun c => if c = .job then ["admin"] else ["all"]

/-- Two-row table, ages 10 and 20, freshly indexed. -/
def T2 : Table := [(0, mkRow 10 (some "admin") (some "no")), (1, mkRow 20 (some "admin") (some "yes"))]

/-- Age range 15–20 with every multiselect at `['all']`. -/
def spec2 : FilterSpec := ⟨15, 20, allSel⟩

/-- Age range 15–20 with the job column restricted. -/
def spec2w : FilterSpec := ⟨15, 20, jobAdminSel⟩

/-- Three-row table, ages 10/20/30, jobs admin/admin/technician. -/
def T3 : Table :=
  [(0, mkRow 10 (some "admin") (some "no")), (1, mkRow 20 (some "admin") (some "yes")),
    (2, mkRow 30 (some "technician") (some "no"))]

/-- Age range 15–35 with the job column restricted to `admin`. -/
def spec3 : FilterSpec := ⟨15, 35, jobAdminSel⟩

/-- The filtering steps reordered: all categorical filters first, the age
query last. -/
def ord3 : List FStep := filterCols.map .cat ++ [.range]

/-- One row whose target value `y` is missing. -/
def T6 : Table := [(0, mkRow 10 (some "admin") none)]

/-- One row with a present target value. -/
def T6w : Table := [(0, mkRow 10 (some "admin") (some "yes"))]

/-- One row of age 10. -/
def T7 : Table := [(0, mkRow 10 (some "admin") (some "no"))]

/-- Age range 20–30: excludes the only row of `T7`. -/
def spec7 : FilterSpec := ⟨20, 30, allSel⟩

/-- An upload whose extension is neither `.csv` nor `.xlsx`; its bytes would
even parse, so only the extension dispatch is exercised. -/
def file8 : UploadedFile := ⟨"bank.txt", .ok T2, .ok T2⟩

/-- Row with a missing job value. -/
def R10a : Row := mkRow 10 none (some "no")

/-- Row with job `admin`. -/
def R10b : Row := mkRow 20 (some "admin") (some "yes")

/-- Table mixing a missing and a present job value. -/
def T10 : Table := [(0, R10a), (1, R10b)]

/-! ### Basic lemmas about rows, the index and single filters -/

theorem rows_length (t : Table) : (rows t).length = t.length :=
  List.length_map t Prod.snd

theorem rows_resetIndex (t : Table) : rows (resetIndex t) = rows t := by
  simp [rows, resetIndex, List.enum_map_snd]

theorem contiguous_resetIndex (t : Table) : Contiguous (resetIndex t) := by
  simp [Contiguous, resetIndex, rows_resetIndex, rows]

theorem map_fst_of_contiguous {t : Table} (h : Contiguous t) :
    t.map Prod.fst = List.range t.length := by
  conv_lhs => rw [← h]
  rw [resetIndex, List.enum_map_fst, rows_length]

theorem rows_filter (q : Row → Bool) (df : Table) :
    rows (df.filter fun p => q p.2) = (rows df).filter q := by
  induction df with
  | nil => rfl
  | cons p ps ih =>
    by_cases h : q p.2 = true
    · simp only [List.filter_cons, rows, List.map_cons, h]
      simpa [rows] using ih
    · simp only [List.filter_cons, rows, List.map_cons, Bool.false_eq_true, if_neg h,
        eq_self_iff_true] at *
      simpa [h] using ih

theorem multiselect_filter_of_all {df : Table} {c : Col} {sel : List String}
    (h : "all" ∈ sel) : multiselect_filter df c sel = df := by
  simp [multiselect_filter, h]

theorem rows_multiselect_filter_of_not_all {df : Table} {c : Col} {sel : List String}
    (h : "all" ∉ sel) :
    rows (multiselect_filter df c sel) = (rows df).filter fun r => isin (colVal r c) sel := by
  rw [multiselect_filter, if_neg h, rows_resetIndex]
  exact rows_filter (fun r => isin (colVal r c) sel) df

theorem contiguous_multiselect_filter_of_not_all {df : Table} {c : Col} {sel : List String}
    (h : "all" ∉ sel) : Contiguous (multiselect_filter df c sel) := by
  rw [multiselect_filter, if_neg h]
  exact contiguous_resetIndex _

theorem rows_multiselect_filter_sublist (df : Table) (c : Col) (sel : List String) :
    (rows (multiselect_filter df c sel)).Sublist (rows df) := by
  by_cases h : "all" ∈ sel
  · rw [multiselect_filter_of_all h]
  · rw [rows_multiselect_filter_of_not_all h]
    exact List.filter_sublist _

theorem rows_queryAge (lo hi : Int) (df : Table) :
    rows (queryAge lo hi df)
      = (rows df).filter fun r => decide (lo ≤ r.age) && decide (r.age ≤ hi) := by
  rw [queryAge]
  exact rows_filter (fun r => decide (lo ≤ r.age) && decide (r.age ≤ hi)) df

theorem mem_rows_queryAge {lo hi : Int} {df : Table} {r : Row}
    (h : r ∈ rows (queryAge lo hi df)) : lo ≤ r.age ∧ r.age ≤ hi := by
  rw [rows_queryAge] at h
  have := (List.mem_filter.mp h).2
  simpa using this

theorem queryAge_eq_self {lo hi : Int} {df : Table}
    (h : ∀ r ∈ rows df, lo ≤ r.age ∧ r.age ≤ hi) : queryAge lo hi df = df := by
  rw [queryAge]
  apply List.filter_eq_self.mpr
  intro p hp
  have hr : p.2 ∈ rows df := List.mem_map_of_mem Prod.snd hp
  simpa using h p.2 hr

theorem mem_rows_multiselect_filter {df : Table} {c : Col} {sel : List String} {r : Row}
    (hall : "all" ∉ sel) (h : r ∈ rows (multiselect_filter df c sel)) :
    isin (colVal r c) sel = true := by
  rw [rows_multiselect_filter_of_not_all hall] at h
  exact (List.mem_filter.mp h).2

theorem multiselect_filter_eq_self {df : Table} {c : Col} {sel : List String}
    (hcont : Contiguous df) (h : ∀ r ∈ rows df, isin (colVal r c) sel = true) :
    multiselect_filter df c sel = df := by
  by_cases hall : "all" ∈ sel
  · exact multiselect_filter_of_all hall
  · rw [multiselect_filter, if_neg hall]
    have hf : (df.filter fun p => isin (colVal p.2 c) sel) = df := by
      apply List.filter_eq_self.mpr
      intro p hp
      exact h p.2 (List.mem_map_of_mem Prod.snd hp)
    rw [hf]
    exact hcont

/-! ### Lemmas about the categorical filter loop -/

theorem rows_applyCats_sublist (spec : FilterSpec) (cs : List Col) (t : Table) :
    (rows (applyCats spec cs t)).Sublist (rows t) := by
  induction cs generalizing t with
  | nil => exact List.Sublist.refl _
  | cons c cs ih =>
    exact (ih (multiselect_filter t c (spec.sel c))).trans
      (rows_multiselect_filter_sublist t c (spec.sel c))

theorem mem_rows_applyCats_sat {spec : FilterSpec} {cs : List Col} {t : Table} {c : Col}
    (hc : c ∈ cs) (hall : "all" ∉ spec.sel c) {r : Row}
    (hr : r ∈ rows (applyCats spec cs t)) : isin (colVal r c) (spec.sel c) = true := by
  induction cs generalizing t with
  | nil => cases hc
  | cons c0 cs ih =>
    rcases List.mem_cons.mp hc with rfl | hc'
    · have hsub := rows_applyCats_sublist spec cs (multiselect_filter t c (spec.sel c))
      exact mem_rows_multiselect_filter hall (hsub.mem hr)
    · exact ih hc' hr

theorem applyCats_of_all (spec : FilterSpec) {cs : List Col}
    (h : ∀ c ∈ cs, "all" ∈ spec.sel c) (t : Table) : applyCats spec cs t = t := by
  induction cs generalizing t with
  | nil => rfl
  | cons c cs ih =>
    rw [applyCats, multiselect_filter_of_all (h c (List.mem_cons_self c cs)),
      ih fun c' hc' => h c' (List.mem_cons_of_mem c hc')]

theorem contiguous_applyCats (spec : FilterSpec) {cs : List Col}
    (h : ∃ c ∈ cs, "all" ∉ spec.sel c) (t : Table) :
    Contiguous (applyCats spec cs t) := by
  induction cs generalizing t with
  | nil => exact absurd h (by simp)
  | cons c0 cs ih =>
    by_cases hrest : ∃ c ∈ cs, "all" ∉ spec.sel c
    · exact ih hrest _
    · push_neg at hrest
      obtain ⟨c, hc, hcall⟩ := h
      rcases List.mem_cons.mp hc with rfl | hc'
      · rw [applyCats, applyCats_of_all spec hrest]
        exact contiguous_multiselect_filter_of_not_all hcall
      · exact absurd (hrest c hc') hcall

theorem applyCats_eq_self {spec : FilterSpec} {cs : List Col} {t : Table}
    (hsat : ∀ c ∈ cs, "all" ∈ spec.sel c ∨ ∀ r ∈ rows t, isin (colVal r c) (spec.sel c) = true)
    (hcont : (∀ c ∈ cs, "all" ∈ spec.sel c) ∨ Contiguous t) :
    applyCats spec cs t = t := by
  induction cs with
  | nil => rfl
  | cons c cs ih =>
    have hstep : multiselect_filter t c (spec.sel c) = t := by
      rcases hsat c (List.mem_cons_self c cs) with hall | hkeep
      · exact multiselect_filter_of_all hall
      · rcases hcont with hcall | hcontig
        · exact multiselect_filter_of_all (hcall c (List.mem_cons_self c cs))
        · exact multiselect_filter_eq_self hcontig hkeep
    rw [applyCats, hstep]
    apply ih
    · exact fun c' hc' => hsat c' (List.mem_cons_of_mem c hc')
    · rcases hcont with hcall | hcontig
      · exact Or.inl fun c' hc' => hcall c' (List.mem_cons_of_mem c hc')
      · exact Or.inr hcontig

/-! ### Lemmas about reordering the filtering steps -/

theorem rows_applyStep (spec : FilterSpec) (t : Table) (s : FStep) :
    rows (applyStep spec t s) = (rows t).filter (stepPred spec s) := by
  cases s with
  | range => exact rows_queryAge spec.ageLo spec.ageHi t
  | cat c =>
    by_cases hall : "all" ∈ spec.sel c
    · rw [applyStep, multiselect_filter_of_all hall]
      have hp : stepPred spec (.cat c) = fun _ => true := by
        funext r
        simp [stepPred, hall]
      rw [hp, List.filter_true]
    · rw [applyStep, rows_multiselect_filter_of_not_all hall]
      congr 1
      funext r
      simp [stepPred, hall]

theorem rows_applySteps (spec : FilterSpec) (l : List FStep) (t : Table) :
    rows (applySteps spec l t)
      = (rows t).filter fun r => l.all fun s => stepPred spec s r := by
  induction l generalizing t with
  | nil =>
    rw [applySteps]
    have hp : (fun r => List.all [] fun s => stepPred spec s r) = fun _ => true := rfl
    rw [hp, List.filter_true]
  | cons s ss ih =>
    rw [applySteps, ih, rows_applyStep, List.filter_filter]
    congr 1
    funext r
    simp [List.all_cons, Bool.and_comm]

theorem all_congr_of_perm {α : Type} {l₁ l₂ : List α} (h : l₁.Perm l₂) (f : α → Bool) :
    l₁.all f = l₂.all f := by
  by_cases h1 : l₁.all f = true
  · rw [h1]
    symm
    rw [List.all_eq_true] at h1 ⊢
    exact fun x hx => h1 x (h.mem_iff.mpr hx)
  · have h2 : ¬l₂.all f = true := fun hh =>
      h1 (List.all_eq_true.mpr fun x hx => List.all_eq_true.mp hh x (h.mem_iff.mp hx))
    simp only [Bool.not_eq_true] at h1 h2
    rw [h1, h2]

theorem rows_applySteps_of_perm {spec : FilterSpec} {l l' : List FStep} (h : l.Perm l')
    (t : Table) : rows (applySteps spec l t) = rows (applySteps spec l' t) := by
  rw [rows_applySteps, rows_applySteps]
  congr 1
  funext r
  exact all_congr_of_perm h _

theorem applySteps_map_cat (spec : FilterSpec) (cs : List Col) (t : Table) :
    applySteps spec (cs.map .cat) t = applyCats spec cs t := by
  induction cs generalizing t with
  | nil => rfl
  | cons c cs ih => rw [List.map_cons, applySteps, applyCats, applyStep, ih]

theorem applySteps_implementedOrder (spec : FilterSpec) (t : Table) :
    applySteps spec implementedOrder t = applyFilters spec t := by
  rw [implementedOrder, applySteps, applyStep, applySteps_map_cat, applyFilters]

/-! ### Sorting and the distribution sum -/

theorem insertSorted_perm (v : String) (l : List String) :
    (insertSorted v l).Perm (v :: l) := by
  induction l with
  | nil => exact List.Perm.refl _
  | cons x xs ih =>
    rw [insertSorted]
    by_cases h : lexLt v.data x.data
    · rw [if_pos h]
    · rw [if_neg h]
      exact (ih.cons x).trans (List.Perm.swap v x xs)

theorem sortLabels_perm (l : List String) : (sortLabels l).Perm l := by
  induction l with
  | nil => exact List.Perm.refl _
  | cons x xs ih => exact (insertSorted_perm x (sortLabels xs)).trans (ih.cons x)

theorem distribution_sum_eq_100 {t : Table} (h : yValues t ≠ []) :
    ((distribution t).map Prod.snd).sum = 100 := by
  have hn : ((yValues t).length : ℚ) ≠ 0 := by
    have : 0 < (yValues t).length := List.length_pos.mpr h
    exact_mod_cast this.ne.symm
  rw [distribution, List.map_map]
  have hsnd : (Prod.snd ∘ fun v =>
      ((v : String), ((yValues t).count v : ℚ) / ((yValues t).length : ℚ) * 100))
      = fun v => ((yValues t).count v : ℚ) / ((yValues t).length : ℚ) * 100 := rfl
  rw [hsnd]
  rw [((sortLabels_perm (yValues t).dedup).map _).sum_eq]
  have hterm : ((yValues t).dedup.map fun v =>
      ((yValues t).count v : ℚ) / ((yValues t).length : ℚ) * 100)
      = (yValues t).dedup.map fun v =>
        ((yValues t).count v : ℚ) * (100 / ((yValues t).length : ℚ)) := by
    congr 1
    funext v
    ring
  rw [hterm, List.sum_map_mul_right]
  have hcast : ((yValues t).dedup.map fun v => (((yValues t).count v : ℕ) : ℚ)).sum
      = ((((yValues t).dedup.map fun v => (yValues t).count v).sum : ℕ) : ℚ) := by
    rw [Nat.cast_list_sum, List.map_map]
    rfl
  rw [hcast, List.sum_map_count_dedup_eq_length]
  field_simp

/-! ### The claims -/

/-- C1: for every table, column and selection set, the categorical filter is
the identity when the selection set contains the sentinel `"all"`, regardless
of co-selected values; otherwise it keeps exactly the rows whose value in
that column is a member of the selection set. -/
theorem claim1_sentinel_or_membership (df : Table) (column : Col)
    (selected_values : List String) :
    ("all" ∈ selected_values → multiselect_filter df column selected_values = df) ∧
    ("all" ∉ selected_values →
      rows (multiselect_filter df column selected_values)
        = (rows df).filter fun r => isin (colVal r column) selected_values) :=
  ⟨fun h => multiselect_filter_of_all h, fun h => rows_multiselect_filter_of_not_all h⟩

/-- Witness for C1 at concrete inputs: a set containing `"all"` next to other
values leaves the table untouched, and a set without it keeps exactly the
matching rows. -/
theorem claim1_witness :
    (multiselect_filter T10 .job ["unemployed", "all"] = T10) ∧
    rows (multiselect_filter T10 .job ["admin"])
      = (rows T10).filter fun r => isin (colVal r .job) ["admin"] :=
  ⟨(claim1_sentinel_or_membership T10 .job ["unemployed", "all"]).1 (by decide),
    (claim1_sentinel_or_membership T10 .job ["admin"]).2 (by decide)⟩

/-- C2 fails as stated: with every multiselect left at `['all']` the
categorical filters return the table unchanged, and `query` keeps the raw
index, so an age range that drops the first row leaves the gapped index
`[1]`, not `[0]`. -/
theorem claim2_counterexample :
    ¬(applyFilters spec2 T2).map Prod.fst = List.range (applyFilters spec2 T2).length := by
  decide

/-- C2 amended: the filtered table's row index is the contiguous
`0, 1, …, n-1` provided at least one of the eight categorical selection sets
omits the sentinel `"all"` (the last such filter's `reset_index` renumbers);
with every selection at `['all']` the index of the age query's survivors is
kept instead. -/
theorem claim2_contiguous_index (spec : FilterSpec) (t : Table)
    (h : ∃ c ∈ filterCols, "all" ∉ spec.sel c) :
    (applyFilters spec t).map Prod.fst = List.range (applyFilters spec t).length :=
  map_fst_of_contiguous (contiguous_applyCats spec h (queryAge spec.ageLo spec.ageHi t))

/-- Witness for the amended C2: restricting the job column forces the
renumbering. -/
theorem claim2_witness :
    (∃ c ∈ filterCols, "all" ∉ spec2w.sel c) ∧
    (applyFilters spec2w T2).map Prod.fst = List.range (applyFilters spec2w T2).length :=
  ⟨by decide, claim2_contiguous_index spec2w T2 (by decide)⟩

/-- C3 fails as stated: applying the categorical filters first and the range
query last is a permutation of the implemented order, yet it produces a
different table — the same surviving row carries index 1 instead of the
renumbered 0, because no `reset_index` runs after the range query. -/
theorem claim3_counterexample :
    ord3.Perm implementedOrder ∧
    applySteps spec3 ord3 T3 ≠ applySteps spec3 implementedOrder T3 :=
  ⟨List.perm_append_comm, by decide⟩

/-- C3 amended: evaluation order is irrelevant to which rows survive and to
their values and relative order — any permutation of the steps yields the
same rows as the implemented order — though the attached row index can
differ (see the counterexample). -/
theorem claim3_rows_order_independent (spec : FilterSpec) (t : Table) (l : List FStep)
    (h : l.Perm implementedOrder) :
    rows (applySteps spec l t) = rows (applyFilters spec t) := by
  rw [← applySteps_implementedOrder]
  exact rows_applySteps_of_perm h t

/-- Witness for the amended C3: the reordering of the counterexample agrees
with the implemented order on the rows. -/
theorem claim3_witness :
    rows (applySteps spec3 ord3 T3) = rows (applyFilters spec3 T3) :=
  claim3_rows_order_independent spec3 T3 ord3 List.perm_append_comm

/-- C4: the full filter pass is idempotent — a second pass with the same
filter spec keeps every row (all already satisfy the predicates), and its
`reset_index` calls renumber an already contiguous index, so the table is
returned unchanged, index included. -/
theorem claim4_filter_idempotent (spec : FilterSpec) (t : Table) :
    applyFilters spec (applyFilters spec t) = applyFilters spec t := by
  have hage : ∀ r ∈ rows (applyFilters spec t), spec.ageLo ≤ r.age ∧ r.age ≤ spec.ageHi := by
    intro r hr
    have hr' : r ∈ rows (applyCats spec filterCols (queryAge spec.ageLo spec.ageHi t)) := hr
    exact mem_rows_queryAge ((rows_applyCats_sublist spec filterCols _).mem hr')
  rw [show applyFilters spec (applyFilters spec t)
      = applyCats spec filterCols (queryAge spec.ageLo spec.ageHi (applyFilters spec t))
      from rfl]
  rw [queryAge_eq_self hage]
  apply applyCats_eq_self
  · intro c hc
    by_cases hall : "all" ∈ spec.sel c
    · exact Or.inl hall
    · refine Or.inr fun r hr => ?_
      have hr' : r ∈ rows (applyCats spec filterCols (queryAge spec.ageLo spec.ageHi t)) := hr
      exact mem_rows_applyCats_sat hc hall hr'
  · by_cases hAll : ∀ c ∈ filterCols, "all" ∈ spec.sel c
    · exact Or.inl hAll
    · refine Or.inr ?_
      push_neg at hAll
      exact contiguous_applyCats spec hAll (queryAge spec.ageLo spec.ageHi t)

/-- C5: the filtered table never has more rows than the raw table, and the
age-range query keeps exactly the entries whose age lies within the
inclusive bounds. -/
theorem claim5_count_le_and_inclusive_range (spec : FilterSpec) (t : Table) :
    (applyFilters spec t).length ≤ t.length ∧
    ∀ p : Nat × Row, p ∈ queryAge spec.ageLo spec.ageHi t ↔
      p ∈ t ∧ spec.ageLo ≤ p.2.age ∧ p.2.age ≤ spec.ageHi := by
  constructor
  · have h1 : (rows (applyFilters spec t)).length
        ≤ (rows (queryAge spec.ageLo spec.ageHi t)).length :=
      (rows_applyCats_sublist spec filterCols _).length_le
    have h2 : (rows (queryAge spec.ageLo spec.ageHi t)).length ≤ (rows t).length := by
      rw [rows_queryAge]
      exact List.length_filter_le _ _
    have := h1.trans h2
    rwa [rows_length, rows_length] at this
  · intro p
    rw [queryAge, List.mem_filter]
    simp

/-- C6 fails as stated: `value_counts` drops missing values, so a non-empty
table whose `y` column is entirely missing yields an empty distribution and
the percentages sum to 0, not 100. -/
theorem claim6_counterexample :
    T6 ≠ ([] : Table) ∧ ((distribution T6).map Prod.snd).sum ≠ 100 := by
  constructor
  · decide
  · have hd : distribution T6 = [] := by decide
    rw [hd]
    norm_num

/-- C6 amended: for every table with at least one non-missing value in the
target column `y`, the computed distribution's percentages sum to exactly
100 (the arithmetic is exact over ℚ, so "up to floating-point epsilon" holds
a fortiori). -/
theorem claim6_distribution_sums_to_100 (t : Table) (h : yValues t ≠ []) :
    ((distribution t).map Prod.snd).sum = 100 :=
  distribution_sum_eq_100 h

/-- Witness for the amended C6: a one-row table with `y = "yes"` gives a
distribution summing to 100. -/
theorem claim6_witness :
    yValues T6w ≠ [] ∧ ((distribution T6w).map Prod.snd).sum = 100 :=
  ⟨by decide, claim6_distribution_sums_to_100 T6w (by decide)⟩

/-- C7: if the filter pass excludes every row, the pipeline produces the
empty table (no error), surfaces the "no data" warning, and short-circuits —
the outcome carries no aggregation, chart or export data. -/
theorem claim7_empty_result_short_circuits (bank_raw : Table) (spec : FilterSpec)
    (h : applyFilters spec bank_raw = []) :
    renderFiltered bank_raw spec
      = .noData "Nenhum dado encontrado com os filtros selecionados." := by
  simp [renderFiltered, h]

/-- Witness for C7: an age range excluding the only row triggers the
warning outcome. -/
theorem claim7_witness :
    applyFilters spec7 T7 = [] ∧
    renderFiltered T7 spec7 = .noData "Nenhum dado encontrado com os filtros selecionados." :=
  ⟨by decide, claim7_empty_result_short_circuits T7 spec7 (by decide)⟩

/-- C8: a file whose name ends in neither `.csv` nor `.xlsx` makes the loader
report the unsupported-format notice and produce no table, and the app run
halts with that notice before any downstream stage. -/
theorem claim8_unsupported_format (f : UploadedFile) (spec : FilterSpec)
    (hcsv : nameEndsWith f.name ".csv" = false)
    (hxlsx : nameEndsWith f.name ".xlsx" = false) :
    load_data f
      = .unsupportedFormat "Formato de arquivo não suportado. Envie um CSV ou Excel." ∧
    runApp (some f) spec
      = .loadFailed "Formato de arquivo não suportado. Envie um CSV ou Excel." := by
  have h1 : load_data f
      = .unsupportedFormat "Formato de arquivo não suportado. Envie um CSV ou Excel." := by
    rw [load_data]
    simp [hcsv, hxlsx]
  exact ⟨h1, by simp [runApp, h1]⟩

/-- Witness for C8: a `.txt` upload is rejected even though its bytes would
have parsed. -/
theorem claim8_witness :
    load_data file8
      = .unsupportedFormat "Formato de arquivo não suportado. Envie um CSV ou Excel." ∧
    runApp (some file8) spec2
      = .loadFailed "Formato de arquivo não suportado. Envie um CSV ou Excel." :=
  claim8_unsupported_format file8 spec2 (by decide) (by decide)

/-- C9 fails as stated: the program has no `EmptyAggregationInput` failure —
invoked on the empty table, the distribution computation returns a value,
namely the empty distribution. -/
theorem claim9_counterexample :
    distribution ([] : Table) = [] ∧ ([] : Table).isEmpty = true := by
  constructor
  · decide
  · rfl

/-- C9 amended: invoked on an empty table the distribution computation does
not fail; it returns the empty distribution (no categories, no percentages). -/
theorem claim9_empty_distribution (t : Table) (h : t = ([] : Table)) :
    distribution t = [] := by
  subst h
  decide

/-- Witness for the amended C9. -/
theorem claim9_witness : distribution ([] : Table) = [] :=
  claim9_empty_distribution [] rfl

/-- C10: when a selection set omits the sentinel, every row whose value in
the filtered column is missing is excluded (membership never matches `none`),
and the option list the UI offers is built from the column's non-missing
values plus the sentinel, so a selection can never name a missing value. -/
theorem claim10_missing_values_excluded (t : Table) (c : Col) (sel : List String)
    (h : "all" ∉ sel) :
    (∀ p ∈ multiselect_filter t c sel, colVal p.2 c ≠ none) ∧
    (∀ v ∈ optionValues t c, v = "all" ∨ ∃ r ∈ rows t, colVal r c = some v) := by
  constructor
  · intro p hp hnone
    have hr : p.2 ∈ rows (multiselect_filter t c sel) := List.mem_map_of_mem Prod.snd hp
    have hsat := mem_rows_multiselect_filter h hr
    rw [hnone] at hsat
    simp [isin] at hsat
  · intro v hv
    rw [optionValues] at hv
    rcases List.mem_append.mp hv with hl | hr
    · right
      obtain ⟨r, hrm, hcv⟩ := List.mem_filterMap.mp (List.mem_dedup.mp hl)
      exact ⟨r, hrm, hcv⟩
    · left
      simpa using hr

/-- Witness for C10: in a table with one missing and one present job value,
filtering on `['admin']` keeps only the present one, whose job is not
missing. -/
theorem claim10_witness : colVal R10b .job ≠ none :=
  (claim10_missing_values_excluded T10 .job ["admin"] (by decide)).1 (0, R10b) (by decide)

end BankApp
